import Mathlib

/-!
Verification of the catalog derivation engine in scripts/generate_catalog.py.

The script is modelled by a shallow embedding: the JSON/YAML input trees are
an inductive `Json` type, Python dictionaries are association lists that
preserve insertion order, and every function of the script is translated to a
Lean function of the same name.  Python behaviour that raises an exception on
inputs outside the Swagger data model (for example calling `.items()` on a
scalar) is noted in comments at the definition concerned; the embedding is
total and returns the neutral value there.
-/

namespace GenCat

/-- Untyped JSON-like tree: the in-memory form of the Swagger document and of
all schema nodes.  Mappings are association lists in insertion order, exactly
like Python dictionaries. -/
inductive Json where
  | null
  | bool (b : Bool)
  | num (n : Int)
  | str (s : String)
  | arr (xs : List Json)
  | obj (kvs : List (String × Json))

/-- Python truthiness of a JSON value: `None`, `False`, `0`, `""`, `[]` and
`\x7b\x7d` are falsy, everything else truthy. -/
def Json.truthy : Json → Bool
  | .null => false
  | .bool b => b
  | .num n => n != 0
  | .str s => s ≠ ""
  | .arr xs => !xs.isEmpty
  | .obj kvs => !kvs.isEmpty

/-- Lookup in an association list, first occurrence wins (Python dictionaries
have unique keys, so the first occurrence is the only one). -/
def getEntry (kvs : List (String × Json)) (k : String) : Option Json :=
  (kvs.find? (fun p => p.1 == k)).map Prod.snd

/-- Python `d.get(k)` on a mapping node; `none` models Python `None`.
On a non-mapping Python raises `AttributeError`; the embedding returns
`none`. -/
def Json.get : Json → String → Option Json
  | .obj kvs, k => getEntry kvs k
  | _, _ => none

/-- Python `d.get(k, default)`. -/
def Json.getD (j : Json) (k : String) (d : Json) : Json :=
  (j.get k).getD d

/-- Truthiness of a Python value that may be `None` (modelled as `none`). -/
def pyTruthyO : Option Json → Bool
  | none => false
  | some v => v.truthy

/-- Python `a or b` on values that may be `None`. -/
def pyOrO (a b : Option Json) : Option Json :=
  if pyTruthyO a then a else b

/-- Python `a or b` on plain values. -/
def pyOrJson (a b : Json) : Json :=
  if a.truthy then a else b

/-- Python `d.get(k) or default` and `d.get(k, default) or default` for a
falsy default: the value when present and truthy, the default otherwise. -/
def py_or_default (o : Option Json) (d : Json) : Json :=
  match o with
  | some v => if v.truthy then v else d
  | none => d

/-- The entries of a mapping node; `[]` for any other node.  (Python raises
`AttributeError` when `.items()` is called on a non-mapping; such documents
are outside the Swagger data model.) -/
def jsonObjEntries : Json → List (String × Json)
  | .obj kvs => kvs
  | _ => []

/-- `j.get(k, \x7b\x7d)` viewed as a mapping: the entries when the value is a
mapping, `[]` when the key is absent.  (A present non-mapping value makes
Python raise further on; the embedding returns `[]`.) -/
def getObjEntries (j : Json) (k : String) : List (String × Json) :=
  jsonObjEntries (j.getD k (.obj []))

/-! ### Python string primitives

The script uses `str.lower`, `str.upper`, `str.strip`, `str.split(sep, 1)`,
`str.startswith`, `str.endswith` and f-string decimal formatting.  They are
modelled character-listwise so that every definition is structurally
recursive and kernel-computable. -/

/-- Python `str.lower()` (the script only lowercases ASCII method names). -/
def py_lower (s : String) : String := ⟨s.data.map Char.toLower⟩

/-- Python `str.upper()`. -/
def py_upper (s : String) : String := ⟨s.data.map Char.toUpper⟩

/-- The ASCII whitespace characters stripped by Python `str.strip()`. -/
def pyWhitespace : List Char := [' ', Char.ofNat 9, Char.ofNat 10, Char.ofNat 13, Char.ofNat 11, Char.ofNat 12]

/-- Strip the characters of `cs` from both ends of a string, like Python
`str.strip(chars)`. -/
def py_strip_set (cs : List Char) (s : String) : String :=
  ⟨((s.data.dropWhile (cs.contains ·)).reverse.dropWhile (cs.contains ·)).reverse⟩

/-- Python `str.strip()`. -/
def py_strip (s : String) : String := py_strip_set pyWhitespace s

/-- Python `str.strip("\x27\x22")`: remove single and double quotes from both
ends. -/
def py_strip_quotes (s : String) : String :=
  py_strip_set [Char.ofNat 39, Char.ofNat 34] s

/-- Split a character list at the first occurrence of `c`: the part before
it, and — when `c` occurs — the part after it.  This is Python
`s.split(c, 1)`. -/
def split_first (c : Char) : List Char → List Char × Option (List Char)
  | [] => ([], none)
  | x :: xs =>
    if x = c then ([], some xs)
    else
      let r := split_first c xs
      (x :: r.1, r.2)

/-- Decimal digits of `n`, most significant first, with explicit fuel so the
definition is structurally recursive.  With fuel greater than `n` this is the
usual decimal expansion. -/
def toDecAux : Nat → Nat → List Char
  | 0, _ => []
  | f + 1, n =>
    if n < 10 then [Nat.digitChar n]
    else toDecAux f (n / 10) ++ [Nat.digitChar (n % 10)]

/-- Decimal rendering of a natural number, as produced by a Python f-string
such as `f"\x7bsuffix\x7d"`. -/
def decRepr (n : Nat) : String := ⟨toDecAux (n + 1) n⟩

/-! ### load_paging_registry

The hand-rolled line parser of `load_paging_registry`.  The file contents are
modelled as the list of its lines, without their trailing newline characters
(so the `rstrip("\n")` of the source is the identity and is omitted). -/

/-- An override registry: mapping from operation id or catalog key to a
mapping from field name to (string) value, in insertion order. -/
abbrev Registry := List (String × List (String × String))

/-- Python dictionary assignment `d[k] = v` on an association list: replace
in place when the key exists, append otherwise. -/
def dictSetEntry (reg : Registry) (k : String) (v : List (String × String)) : Registry :=
  if reg.any (fun p => p.1 == k) then
    reg.map (fun p => if p.1 == k then (p.1, v) else p)
  else reg ++ [(k, v)]

/-- Python dictionary assignment on a field mapping. -/
def dictSetField (e : List (String × String)) (f v : String) : List (String × String) :=
  if e.any (fun p => p.1 == f) then
    e.map (fun p => if p.1 == f then (p.1, v) else p)
  else e ++ [(f, v)]

/-- `overrides[k][f] = v` where `k` is known to be present. -/
def updateEntryField (reg : Registry) (k f v : String) : Registry :=
  reg.map (fun p => if p.1 == k then (p.1, dictSetField p.2 f v) else p)

/-- State of the registry line parser: the overrides built so far and the
current top-level key, `none` when the previous top-level line was not a
key line. -/
structure RegParseState where
  overrides : Registry
  current_key : Option String

/-- One line of the `load_paging_registry` loop.  `Char.ofNat 35` is the
comment character and `Char.ofNat 58` is the colon. -/
def registry_line_step (st : RegParseState) (raw_line : String) : RegParseState :=
  let line : String := ⟨(split_first (Char.ofNat 35) raw_line.data).1⟩
  let stripped := py_strip line
  if stripped = "" ∨ stripped = "---" then st
  else if !(line.data.head? == some ' ') then
    -- a top-level line: `line.startswith(" ")` is false
    if stripped.data.getLast? == some (Char.ofNat 58) then
      let key := py_strip_quotes (py_strip ⟨stripped.data.dropLast⟩)
      { overrides := dictSetEntry st.overrides key [], current_key := some key }
    else { st with current_key := none }
  else
    match st.current_key with
    | some k =>
      -- Python `if current_key and ":" in stripped`: an empty current key is
      -- falsy and skips the line, like `None`.
      if k ≠ "" ∧ stripped.data.contains (Char.ofNat 58) then
        match split_first (Char.ofNat 58) stripped.data with
        | (fcs, some vcs) =>
          let field := py_strip ⟨fcs⟩
          let value := py_strip_quotes (py_strip ⟨vcs⟩)
          if value ≠ "" then { st with overrides := updateEntryField st.overrides k field value }
          else st
        | (_, none) => st
      else st
    | none => st

/-- Parse the lines of a registry file, then drop entries that stayed empty
(the final `\x7bk: v for k, v in overrides.items() if v\x7d`). -/
def parse_registry_lines (lines : List String) : Registry :=
  ((lines.foldl registry_line_step ⟨[], none⟩).overrides).filter (fun p => !p.2.isEmpty)

/-- `load_paging_registry`.  The filesystem is abstracted by `path` (the
argument, `none` when not given; the empty string is falsy in Python and also
yields the empty registry), `path_exists` (whether the path exists on disk)
and `lines` (the lines of the file when it exists).  A missing path yields
the empty registry, it is not an error. -/
def load_paging_registry (path : Option String) (path_exists : Bool) (lines : List String) : Registry :=
  match path with
  | none => []
  | some p => if p = "" then [] else if !path_exists then [] else parse_registry_lines lines

/-! ### make_catalog internals -/

/-- The fixed HTTP method set of the script. -/
def HTTP_METHODS : List String :=
  ["get", "post", "put", "delete", "patch", "head", "options"]

/-- The marker matched by the regular expression `#/definitions/(.+)`. -/
def defRefMarker : List Char := "#/definitions/".data

/-- `re.match(r"#/definitions/(.+)", r)` and its first group: the reference
must start with the marker, and the group is the run of characters after it
up to the first newline (`.` does not match a newline and `re.match` only
anchors at the start); it must be non-empty. -/
def parse_def_ref (r : String) : Option String :=
  if defRefMarker.isPrefixOf r.data then
    let name := (r.data.drop defRefMarker.length).takeWhile (· ≠ Char.ofNat 10)
    if name.isEmpty then none else some ⟨name⟩
  else none

/-- `resolve_ref`: one level of indirection through the definitions table.
A falsy node or one without a `$ref` key is returned unchanged; a matching
in-document reference is replaced by the named definition, or by the empty
mapping when the name is absent; a non-matching reference string leaves the
node unchanged.  (A `$ref` value that is not a string makes Python raise in
`re.match`; scalars and sequences either compare `"$ref" not in schema` as
true and are returned unchanged, or raise — the embedding returns them
unchanged.) -/
def resolve_ref (defs : List (String × Json)) (schema : Json) : Json :=
  if !schema.truthy then schema
  else
    match schema with
    | .obj kvs =>
      match getEntry kvs "$ref" with
      | some (.str r) =>
        match parse_def_ref r with
        | some name => (getEntry defs name).getD (.obj [])
        | none => schema
      | some _ => schema
      | none => schema
    | s => s

/-- The `properties` mapping of a schema node after resolution:
`(schema or \x7b\x7d).get("properties", \x7b\x7d)` as an association list. -/
def schema_properties (defs : List (String × Json)) (schema : Json) : List (String × Json) :=
  match (resolve_ref defs schema).get "properties" with
  | some (.obj kvs) => kvs
  | _ => []

/-- `schema_top_props`: the keys of the properties mapping, in declaration
order. -/
def schema_top_props (defs : List (String × Json)) (schema : Json) : List String :=
  (schema_properties defs schema).map Prod.fst

/-- Whether a property value is an array-typed schema:
`v.get("type") == "array"` guarded by `isinstance(v, dict)` (`Json.get`
already yields `none` on non-mappings). -/
def isArrayVal (v : Json) : Bool :=
  match v.get "type" with
  | some (.str s) => s == "array"
  | _ => false

/-- Whether `name` is a property and its value is array-typed. -/
def prop_is_array (props : List (String × Json)) (name : String) : Bool :=
  match getEntry props name with
  | some v => isArrayVal v
  | none => false

/-- `infer_items_path`: the priority names `entities`, `results`,
`conversations`, then the first array-typed property in declaration order,
else `none`. -/
def infer_items_path (defs : List (String × Json)) (schema : Json) : Option String :=
  let props := schema_properties defs schema
  if prop_is_array props "entities" then some "$.entities"
  else if prop_is_array props "results" then some "$.results"
  else if prop_is_array props "conversations" then some "$.conversations"
  else
    match props.find? (fun p => isArrayVal p.2) with
    | some p => some ("$." ++ p.1)
    | none => none

/-- `classify_paging`: ordered heuristic over the top-level property names.
Python builds `set(props or [])`; only membership is used, so the list is
queried directly. -/
def classify_paging (props : List String) : String :=
  if "nextUri" ∈ props then "NEXT_URI"
  else if "nextPage" ∈ props then "NEXT_PAGE"
  else if "cursor" ∈ props then "CURSOR"
  else if "after" ∈ props then "AFTER"
  else if ("pageNumber" ∈ props ∧ "pageSize" ∈ props) ∧
          ("pageCount" ∈ props ∨ "total" ∈ props ∨ "totalCount" ∈ props) then "PAGE_NUMBER"
  else if "totalHits" ∈ props then "TOTALHITS"
  else if "startIndex" ∈ props ∧ "pageSize" ∈ props then "START_INDEX"
  else "UNKNOWN"

/-- `merge_params` operand: `item.get("parameters", []) or []` as a list;
a present truthy non-sequence value makes Python raise at the concatenation
and is modelled as `[]`. -/
def params_of (item : Json) : List Json :=
  match pyOrJson (item.getD "parameters" (.arr [])) (.arr []) with
  | .arr xs => xs
  | _ => []

/-- `merge_params`: path-item-level parameters followed by operation-level
parameters. -/
def merge_params (path_item op_item : Json) : List Json :=
  params_of path_item ++ params_of op_item

/-- The string elements of a scopes value when it is a sequence
(`isinstance(scopes, list)` with the inner `isinstance(s, str)` filter),
`[]` otherwise. -/
def scope_strings (v : Json) : List String :=
  match v with
  | .arr xs => xs.filterMap (fun s => match s with | .str t => some t | _ => none)
  | _ => []

/-- The scopes collected by `extract_required_permissions` from a list of
security requirements: only mapping requirements contribute, and inside them
only schemes declared in `securityDefinitions` with a sequence of scopes. -/
def collect_scopes (security_defs : List (String × Json)) (reqs : List Json) : List String :=
  reqs.flatMap (fun requirement =>
    match requirement with
    | .obj kvs => kvs.flatMap (fun p =>
        if (getEntry security_defs p.1).isSome then scope_strings p.2 else [])
    | _ => [])

/-- Lexicographic comparison of character lists by code point, the order
Python uses to compare strings. -/
def charListLe : List Char → List Char → Bool
  | [], _ => true
  | _ :: _, [] => false
  | a :: as, b :: bs => if a = b then charListLe as bs else decide (a < b)

/-- String comparison as Python performs it; proved below to coincide with
the `≤` of the canonical linear order on `String`. -/
def py_str_le (a b : String) : Bool := charListLe a.data b.data

/-- `sorted(set(xs))` for strings: duplicates removed, ascending order.  Any
sorting algorithm produces the same list here, because equal strings are
indistinguishable; insertion sort is used for its proof support. -/
def py_sorted_set (xs : List String) : List String :=
  xs.dedup.insertionSort (fun a b => py_str_le a b = true)

/-- `extract_required_permissions`: `none` models the Python `None` both for
an absent security requirement and for the null result. -/
def extract_required_permissions (security_defs : List (String × Json))
    (security : Option Json) : Option (List String) :=
  match security with
  | some (.arr reqs) =>
    let required := collect_scopes security_defs reqs
    if required.isEmpty then none else some (py_sorted_set required)
  | _ => none

/-- The response status codes scanned for a schema, in priority order. -/
def response_codes : List String := ["200", "201", "202", "203", "204", "default"]

/-- The first response among the scanned codes that is a mapping declaring a
`schema` key; the value of that key (it may be any node, including `null`). -/
def find_response_schema (responses : Json) : Option Json :=
  response_codes.findSome? (fun code =>
    match responses.get code with
    | some (.obj kvs) => getEntry kvs "schema"
    | _ => none)

/-- Lookup of a registry entry. -/
def lookupReg (reg : Registry) (k : String) : Option (List (String × String)) :=
  (reg.find? (fun p => p.1 == k)).map Prod.snd

/-- Lookup of a field inside a registry entry. -/
def lookupField (e : List (String × String)) (f : String) : Option String :=
  (e.find? (fun p => p.1 == f)).map Prod.snd

/-- Python `paging_registry.get(catalog_key) or paging_registry.get(op_id)`:
an empty mapping is falsy and falls through to the second lookup. -/
def pyOrEntry (a b : Option (List (String × String))) : Option (List (String × String)) :=
  match a with
  | some e => if e.isEmpty then b else some e
  | none => b

/-- The override merge of `make_catalog` (lines 175-178): when the looked-up
entry is truthy, each of the two fields is taken from it when present and
kept otherwise. -/
def apply_override (reg : Registry) (catalog_key op_id : String)
    (paging_type : String) (items_path : Option String) : String × Option String :=
  match pyOrEntry (lookupReg reg catalog_key) (lookupReg reg op_id) with
  | some e =>
    if e.isEmpty then (paging_type, items_path)
    else
      ((lookupField e "type").getD paging_type,
       match lookupField e "itemsPath" with
       | some v => some v
       | none => items_path)
  | none => (paging_type, items_path)

/-- The disambiguated key candidate `f"\x7bop_id\x7d__\x7bsuffix\x7d"`. -/
def mk_suffix_key (op_id : String) (k : Nat) : String :=
  op_id ++ "__" ++ decRepr k

/-- The suffix search loop, with fuel: try `op_id__s`, `op_id__(s+1)`, …
until a candidate is free.  `seen.length + 1` fuel always suffices (proved
below), so the fuel-exhausted base case is never reached from
`assign_key`. -/
def assign_key_aux (op_id : String) (seen : List String) : Nat → Nat → String
  | 0, s => mk_suffix_key op_id s
  | f + 1, s =>
    let cand := mk_suffix_key op_id s
    if cand ∈ seen then assign_key_aux op_id seen f (s + 1) else cand

/-- Catalog key assignment: the operation id itself when unused, otherwise
the first free `op_id__k` for `k = 2, 3, …`. -/
def assign_key (op_id : String) (seen : List String) : String :=
  if op_id ∈ seen then assign_key_aux op_id seen (seen.length + 1) 2 else op_id

/-- One normalized parameter, with the field names of the emitted record
(`loc` is the `in` field).  `none` models Python `None`. -/
structure ParameterRecord where
  name : Option Json
  loc : Option Json
  required : Bool
  type_ : Option Json
  schema : Option Json
  ref : Option Json

/-- The parameter normalization of the enumerator loop. -/
def normalize_param (p : Json) : ParameterRecord where
  name := p.get "name"
  loc := p.get "in"
  required := (p.getD "required" (.bool false)).truthy
  type_ := pyOrO (p.get "type") ((pyOrJson (p.getD "schema" (.obj [])) (.obj [])).get "type")
  schema := p.get "schema"
  ref := p.get "$ref"

/-- One operation record, with the fields written to `operations.json`. -/
structure OperationRecord where
  catalogKey : String
  operationId : String
  method : String
  path : String
  tags : Json
  summary : Json
  description : Json
  security : Option Json
  requiredPermissions : Option (List String)
  parameters : List ParameterRecord
  responseTopLevelProperties : List String
  responseItemsPath : Option String
  pagingType : String

/-- One pagination record, with the fields written to
`pagination-map.json`. -/
structure PagingRecord where
  type_ : String
  itemsPath : Option String
  responseProps : List String

/-- The running state of the enumerator loop: the two output mappings in
insertion order and the set of catalog keys used so far. -/
structure CatState where
  operations : List (String × OperationRecord)
  paging : List (String × PagingRecord)
  seen : List String

/-- The body of the inner loop of `make_catalog`, for one
`(method, op_item)` entry whose lower-cased key is an HTTP method: the fresh
catalog key and the two records built for it.  A truthy non-string
`operationId` is outside the Swagger data model (Python would use the raw
value as the mapping key); the embedding falls back to the synthesized id
there. -/
def catalog_entry (swagger : Json) (reg : Registry) (api_path : String) (path_item : Json)
    (method : String) (op_item : Json) (seen : List String) :
    String × OperationRecord × PagingRecord :=
  let method_l := py_lower method
  let defs := getObjEntries swagger "definitions"
  let security_defs := getObjEntries swagger "securityDefinitions"
  let op_id :=
    match op_item.get "operationId" with
    | some (.str s) => if s ≠ "" then s else method_l ++ "_" ++ api_path
    | _ => method_l ++ "_" ++ api_path
  let catalog_key := assign_key op_id seen
  let params := (merge_params path_item op_item).map normalize_param
  let responses := pyOrJson (op_item.getD "responses" (.obj [])) (.obj [])
  let response_schema := find_response_schema responses
  let top_props := if pyTruthyO response_schema then
      schema_top_props defs (response_schema.getD .null) else []
  let items_path₀ := if pyTruthyO response_schema then
      infer_items_path defs (response_schema.getD .null) else none
  let paging_type₀ := if pyTruthyO response_schema then classify_paging top_props else "UNKNOWN"
  let merged := apply_override reg catalog_key op_id paging_type₀ items_path₀
  let paging_type := merged.1
  let items_path := merged.2
  let security : Option Json :=
    match op_item.get "security" with
    | some v => some v
    | none => swagger.get "security"
  let opRec : OperationRecord :=
    { catalogKey := catalog_key
      operationId := op_id
      method := py_upper method
      path := api_path
      tags := py_or_default (op_item.get "tags") (.arr [])
      summary := py_or_default (op_item.get "summary") (.str "")
      description := py_or_default (op_item.get "description") (.str "")
      security := security
      requiredPermissions := extract_required_permissions security_defs security
      parameters := params
      responseTopLevelProperties := top_props
      responseItemsPath := items_path
      pagingType := paging_type }
  let pagRec : PagingRecord :=
    { type_ := paging_type, itemsPath := items_path, responseProps := top_props }
  (catalog_key, opRec, pagRec)

/-- One iteration of the inner loop of `make_catalog`, for one
`(method, op_item)` entry of a path item.  Entries whose lower-cased key is
not an HTTP method are skipped.  The catalog key is fresh (proved below), so
the Python dictionary assignments append. -/
def catalog_step (swagger : Json) (reg : Registry) (api_path : String) (path_item : Json)
    (st : CatState) (entry : String × Json) : CatState :=
  if py_lower entry.1 ∈ HTTP_METHODS then
    let r := catalog_entry swagger reg api_path path_item entry.1 entry.2 st.seen
    { operations := st.operations ++ [(r.1, r.2.1)]
      paging := st.paging ++ [(r.1, r.2.2)]
      seen := st.seen ++ [r.1] }
  else st

/-- `make_catalog`: walk every path and every method entry under it, in
document order, and return the operations mapping and the pagination
mapping. -/
def make_catalog (swagger : Json) (reg : Registry) :
    List (String × OperationRecord) × List (String × PagingRecord) :=
  let paths := getObjEntries swagger "paths"
  let final := paths.foldl
    (fun st pe => (jsonObjEntries pe.2).foldl (catalog_step swagger reg pe.1 pe.2) st)
    ⟨[], [], []⟩
  (final.operations, final.paging)

/-! ### The main entry point

`main` loads the document (a missing document path makes `open` raise, so
nothing is written), loads the registry, runs `make_catalog` and writes the
three output files. -/

/-- The names of the files written by `main`, in order. -/
def main_output_files : List String :=
  ["operations.json", "pagination-map.json", "generated-at.txt"]

/-- The written outputs of one run: the two mappings and the timestamp
line. -/
structure RunOutputs where
  operations : List (String × OperationRecord)
  paging : List (String × PagingRecord)
  generated_at : String

/-- One run of `main`.  The filesystem is abstracted as for
`load_paging_registry`, plus `swagger_exists` for the document path and `now`
for the clock.  `none` means the process aborted before writing any
output. -/
def run_main (swagger_exists : Bool) (swagger : Json) (reg_path : Option String)
    (reg_exists : Bool) (reg_lines : List String) (now : String) : Option RunOutputs :=
  if swagger_exists then
    let reg := load_paging_registry reg_path reg_exists reg_lines
    let c := make_catalog swagger reg
    some ⟨c.1, c.2, now⟩
  else none

/-! ### Helper lemmas: decimal rendering is injective -/

/-- Evaluation of a decimal digit string, for the round-trip proof. -/
def decVal (cs : List Char) : Nat :=
  cs.foldl (fun a c => 10 * a + (c.toNat - 48)) 0

theorem digitChar_toNat {d : Nat} (h : d < 10) : (Nat.digitChar d).toNat = 48 + d := by
  interval_cases d <;> rfl

theorem decVal_append_digit (cs : List Char) (c : Char) :
    decVal (cs ++ [c]) = 10 * decVal cs + (c.toNat - 48) := by
  simp [decVal, List.foldl_append]

theorem toDecAux_spec : ∀ f n, n < f → decVal (toDecAux f n) = n ∧ toDecAux f n ≠ [] := by
  intro f
  induction f with
  | zero => omega
  | succ f ih =>
    intro n hn
    by_cases h10 : n < 10
    · constructor
      · simp [toDecAux, h10, decVal, digitChar_toNat h10]
      · simp [toDecAux, h10]
    · have hdiv : n / 10 < n := Nat.div_lt_self (by omega) (by omega)
      have hrec := ih (n / 10) (by omega)
      constructor
      · simp only [toDecAux, h10, if_false]
        rw [decVal_append_digit, hrec.1, digitChar_toNat (Nat.mod_lt n (by omega))]
        omega
      · simp [toDecAux, h10]

theorem decRepr_inj {a b : Nat} (h : decRepr a = decRepr b) : a = b := by
  have hdata : toDecAux (a + 1) a = toDecAux (b + 1) b := congrArg String.data h
  have ha := (toDecAux_spec (a + 1) a (by omega)).1
  have hb := (toDecAux_spec (b + 1) b (by omega)).1
  rw [← ha, ← hb, hdata]

theorem mk_suffix_key_inj {op_id : String} {k₁ k₂ : Nat}
    (h : mk_suffix_key op_id k₁ = mk_suffix_key op_id k₂) : k₁ = k₂ := by
  have hdata : (op_id ++ "__" ++ decRepr k₁).data = (op_id ++ "__" ++ decRepr k₂).data :=
    congrArg String.data h
  simp only [String.data_append, List.append_assoc, List.append_cancel_left_eq,
    List.cons.injEq, true_and] at hdata
  exact decRepr_inj (String.ext hdata)

/-! ### Helper lemmas: the suffix search loop finds the first free key -/

theorem assign_key_aux_spec (op_id : String) (seen : List String) :
    ∀ fuel s, (∃ k, s ≤ k ∧ k < s + fuel ∧ mk_suffix_key op_id k ∉ seen) →
    ∃ k, s ≤ k ∧ assign_key_aux op_id seen fuel s = mk_suffix_key op_id k ∧
      mk_suffix_key op_id k ∉ seen ∧ ∀ j, s ≤ j → j < k → mk_suffix_key op_id j ∈ seen := by
  intro fuel
  induction fuel with
  | zero => intro s h; omega
  | succ f ih =>
    intro s h
    by_cases hc : mk_suffix_key op_id s ∈ seen
    · have hex : ∃ k, s + 1 ≤ k ∧ k < s + 1 + f ∧ mk_suffix_key op_id k ∉ seen := by
        obtain ⟨k, hk1, hk2, hk3⟩ := h
        refine ⟨k, ?_, by omega, hk3⟩
        rcases Nat.eq_or_lt_of_le hk1 with rfl | hlt
        · exact absurd hc hk3
        · omega
      obtain ⟨k, hk1, hk2, hk3, hk4⟩ := ih (s + 1) hex
      refine ⟨k, by omega, ?_, hk3, ?_⟩
      · simpa [assign_key_aux, hc] using hk2
      · intro j hj1 hj2
        rcases Nat.eq_or_lt_of_le hj1 with rfl | hlt
        · exact hc
        · exact hk4 j (by omega) hj2
    · exact ⟨s, le_refl s, by simp [assign_key_aux, hc], hc, by omega⟩

theorem exists_free_suffix (op_id : String) (seen : List String) :
    ∃ k, 2 ≤ k ∧ k < 2 + (seen.length + 1) ∧ mk_suffix_key op_id k ∉ seen := by
  by_contra hcon
  push_neg at hcon
  have hsub : (Finset.Icc 2 (seen.length + 2)).image (mk_suffix_key op_id) ⊆ seen.toFinset := by
    intro x hx
    rw [Finset.mem_image] at hx
    obtain ⟨k, hk, rfl⟩ := hx
    rw [Finset.mem_Icc] at hk
    rw [List.mem_toFinset]
    exact hcon _ hk.1 (by omega)
  have hcard := Finset.card_le_card hsub
  rw [Finset.card_image_of_injOn (fun a _ b _ hab => mk_suffix_key_inj hab)] at hcard
  rw [Nat.card_Icc] at hcard
  have := seen.toFinset_card_le
  omega

/-- The assigned catalog key is never one already used. -/
theorem assign_key_not_mem (op_id : String) (seen : List String) :
    assign_key op_id seen ∉ seen := by
  unfold assign_key
  split_ifs with hmem
  · obtain ⟨k, _, hres, hfree, _⟩ :=
      assign_key_aux_spec op_id seen (seen.length + 1) 2 (exists_free_suffix op_id seen)
    rw [hres]
    exact hfree
  · exact hmem

/-! ### Helper lemmas: the boolean string comparison agrees with the
canonical order on `String`, and `py_sorted_set` sorts and deduplicates -/

theorem charListLe_iff : ∀ as bs : List Char, charListLe as bs = true ↔ ¬ List.Lex (· < ·) bs as := by
  intro as
  induction as with
  | nil =>
    intro bs
    exact iff_of_true rfl (List.Lex.not_nil_right _ _)
  | cons a as ih =>
    intro bs
    cases bs with
    | nil =>
      simp only [charListLe]
      exact iff_of_false (by simp) (fun hcon => hcon List.Lex.nil)
    | cons b bs =>
      by_cases hab : a = b
      · subst hab
        rw [show charListLe (a :: as) (a :: bs) = charListLe as bs by simp [charListLe]]
        rw [ih bs]
        constructor
        · intro hnot hcon
          exact hnot (List.Lex.cons_iff.mp hcon)
        · intro hnot hcon
          exact hnot (List.Lex.cons_iff.mpr hcon)
      · rw [show charListLe (a :: as) (b :: bs) = decide (a < b) by simp [charListLe, hab]]
        rw [decide_eq_true_eq]
        constructor
        · intro hlt hcon
          cases hcon with
          | cons _ => exact hab rfl
          | rel hr => exact absurd hlt (not_lt_of_lt hr)
        · intro hnot
          have hba : ¬ b < a := fun hr => hnot (List.Lex.rel hr)
          exact lt_of_le_of_ne (not_lt.mp hba) hab

theorem py_str_le_iff (a b : String) : py_str_le a b = true ↔ a ≤ b := by
  rw [py_str_le, charListLe_iff]
  have hlt : b < a ↔ List.Lex (· < ·) b.data a.data := String.lt_iff_toList_lt
  rw [← hlt]
  exact not_lt

instance : IsTotal String (fun a b => py_str_le a b = true) :=
  ⟨fun a b => by
    rw [py_str_le_iff, py_str_le_iff]
    exact le_total a b⟩

instance : IsTrans String (fun a b => py_str_le a b = true) :=
  ⟨fun a b c hab hbc => by
    rw [py_str_le_iff] at *
    exact le_trans hab hbc⟩

instance : IsAntisymm String (fun a b => py_str_le a b = true) :=
  ⟨fun a b hab hba => by
    rw [py_str_le_iff] at *
    exact le_antisymm hab hba⟩

theorem py_sorted_set_sorted_le (xs : List String) :
    (py_sorted_set xs).Sorted (· ≤ ·) :=
  (List.sorted_insertionSort _ _).imp (fun h => (py_str_le_iff _ _).mp h)

theorem py_sorted_set_perm (xs : List String) : List.Perm (py_sorted_set xs) xs.dedup :=
  List.perm_insertionSort _ _

theorem py_sorted_set_nodup (xs : List String) : (py_sorted_set xs).Nodup :=
  (py_sorted_set_perm xs).nodup_iff.mpr xs.nodup_dedup

theorem py_sorted_set_mem {a : String} {xs : List String} :
    a ∈ py_sorted_set xs ↔ a ∈ xs :=
  (py_sorted_set_perm xs).mem_iff.trans List.mem_dedup

theorem py_sorted_set_eq_of_mem_iff {xs ys : List String}
    (h : ∀ a, a ∈ xs ↔ a ∈ ys) : py_sorted_set xs = py_sorted_set ys := by
  have hperm : List.Perm (py_sorted_set xs) (py_sorted_set ys) :=
    (List.perm_ext_iff_of_nodup (py_sorted_set_nodup xs) (py_sorted_set_nodup ys)).mpr
      (fun a => by rw [py_sorted_set_mem, py_sorted_set_mem]; exact h a)
  exact List.eq_of_perm_of_sorted hperm (List.sorted_insertionSort _ _) (List.sorted_insertionSort _ _)

theorem py_sorted_set_ne_nil {xs : List String} (h : xs ≠ []) : py_sorted_set xs ≠ [] := by
  obtain ⟨a, ha⟩ := List.exists_mem_of_ne_nil xs h
  intro hcon
  have hmem : a ∈ py_sorted_set xs := py_sorted_set_mem.mpr ha
  rw [hcon] at hmem
  exact List.not_mem_nil a hmem

/-! ### Helper lemmas: loaded registries are well-formed

Every field value stored by the line parser is guarded by `value != ""`, and
the final comprehension drops entries with no fields, so a loaded registry
has no empty entries and no empty field values. -/

/-- A generic preservation principle for `List.foldl`. -/
theorem foldl_preserves {α β : Type _} (P : α → Prop) (f : α → β → α) :
    ∀ (l : List β) (init : α), P init → (∀ a b, P a → P (f a b)) → P (l.foldl f init)
  | [], _, h, _ => h
  | b :: l, init, h, hstep => foldl_preserves P f l (f init b) (hstep init b h) hstep

/-- All field values in all entries are non-empty. -/
def RegValuesNonempty (reg : Registry) : Prop :=
  ∀ e ∈ reg, ∀ fv ∈ e.2, fv.2 ≠ ""

theorem dictSetField_values {e : List (String × String)} {f v : String}
    (he : ∀ fv ∈ e, fv.2 ≠ "") (hv : v ≠ "") : ∀ fv ∈ dictSetField e f v, fv.2 ≠ "" := by
  intro fv hfv
  unfold dictSetField at hfv
  split at hfv
  · rcases List.mem_map.mp hfv with ⟨p, hp, hfveq⟩
    by_cases hpf : p.1 == f
    · rw [if_pos hpf] at hfveq
      rw [← hfveq]
      exact hv
    · rw [if_neg hpf] at hfveq
      rw [← hfveq]
      exact he p hp
  · rcases List.mem_append.mp hfv with hmem | hmem
    · exact he fv hmem
    · rw [List.mem_singleton] at hmem
      rw [hmem]
      exact hv

theorem dictSetEntry_values {reg : Registry} {k : String}
    (h : RegValuesNonempty reg) : RegValuesNonempty (dictSetEntry reg k []) := by
  intro e he
  unfold dictSetEntry at he
  split at he
  · rcases List.mem_map.mp he with ⟨p, hp, heq⟩
    by_cases hpk : p.1 == k
    · rw [if_pos hpk] at heq
      rw [← heq]
      intro fv hfv
      exact absurd hfv (List.not_mem_nil fv)
    · rw [if_neg hpk] at heq
      rw [← heq]
      exact h p hp
  · rcases List.mem_append.mp he with hmem | hmem
    · exact h e hmem
    · rw [List.mem_singleton] at hmem
      rw [hmem]
      intro fv hfv
      exact absurd hfv (List.not_mem_nil fv)

theorem updateEntryField_values {reg : Registry} {k f v : String}
    (h : RegValuesNonempty reg) (hv : v ≠ "") : RegValuesNonempty (updateEntryField reg k f v) := by
  intro e he
  unfold updateEntryField at he
  rcases List.mem_map.mp he with ⟨p, hp, heq⟩
  by_cases hpk : p.1 == k
  · rw [if_pos hpk] at heq
    rw [← heq]
    exact dictSetField_values (h p hp) hv
  · rw [if_neg hpk] at heq
    rw [← heq]
    exact h p hp

theorem registry_line_step_values {st : RegParseState} {raw_line : String}
    (h : RegValuesNonempty st.overrides) :
    RegValuesNonempty (registry_line_step st raw_line).overrides := by
  simp only [registry_line_step]
  split
  · exact h
  · split
    · split
      · exact dictSetEntry_values h
      · exact h
    · split
      · split
        · split
          · split
            next hv => exact updateEntryField_values h hv
            next => exact h
          next => exact h
        · exact h
      · exact h

/-- A loaded registry is well-formed: no empty entries, no empty field
values. -/
theorem parse_registry_lines_wf (lines : List String) :
    ∀ e ∈ parse_registry_lines lines, e.2 ≠ [] ∧ ∀ fv ∈ e.2, fv.2 ≠ "" := by
  intro e he
  unfold parse_registry_lines at he
  rw [List.mem_filter] at he
  have hvals : RegValuesNonempty (lines.foldl registry_line_step ⟨[], none⟩).overrides :=
    foldl_preserves (fun st : RegParseState => RegValuesNonempty st.overrides)
      registry_line_step lines ⟨[], none⟩
      (fun e' he' => absurd he' (List.not_mem_nil e'))
      (fun a b ha => registry_line_step_values ha)
  constructor
  · intro hnil
    rw [hnil] at he
    simp at he
  · exact hvals e he.1

theorem load_paging_registry_wf (path : Option String) (ex : Bool) (lines : List String) :
    ∀ e ∈ load_paging_registry path ex lines, e.2 ≠ [] ∧ ∀ fv ∈ e.2, fv.2 ≠ "" := by
  cases path with
  | none =>
    intro e he
    exact absurd he (List.not_mem_nil e)
  | some p =>
    simp only [load_paging_registry]
    split_ifs with h1 h2
    · intro e he
      exact absurd he (List.not_mem_nil e)
    · intro e he
      exact absurd he (List.not_mem_nil e)
    · exact parse_registry_lines_wf lines

/-! ### Helper lemmas: the enumerator state invariant -/

/-- Invariant of the enumerator loop: operations and pagination carry the
same key list, the keys are distinct, and every key has been marked as
seen. -/
def goodState (st : CatState) : Prop :=
  st.operations.map Prod.fst = st.paging.map Prod.fst ∧
  (st.operations.map Prod.fst).Nodup ∧
  ∀ k ∈ st.operations.map Prod.fst, k ∈ st.seen

/-- The key produced by the loop body is never one already used. -/
theorem catalog_entry_key_not_mem (swagger : Json) (reg : Registry) (api_path : String)
    (path_item : Json) (method : String) (op_item : Json) (seen : List String) :
    (catalog_entry swagger reg api_path path_item method op_item seen).1 ∉ seen := by
  simp only [catalog_entry]
  exact assign_key_not_mem _ seen

theorem catalog_step_good {swagger : Json} {reg : Registry} {api_path : String}
    {path_item : Json} {st : CatState} {entry : String × Json}
    (h : goodState st) : goodState (catalog_step swagger reg api_path path_item st entry) := by
  obtain ⟨hkeys, hnodup, hseen⟩ := h
  simp only [catalog_step]
  split
  · refine ⟨?_, ?_, ?_⟩
    · simp only [List.map_append, List.map_cons, List.map_nil]
      rw [hkeys]
    · simp only [List.map_append, List.map_cons, List.map_nil]
      rw [List.nodup_append]
      refine ⟨hnodup, List.nodup_singleton _, ?_⟩
      intro a ha hb
      rw [List.mem_singleton] at hb
      subst hb
      exact catalog_entry_key_not_mem swagger reg api_path path_item entry.1 entry.2 st.seen
        (hseen _ ha)
    · intro k hk
      simp only [List.map_append, List.map_cons, List.map_nil, List.mem_append,
        List.mem_singleton] at hk
      rcases hk with hk | hk
      · exact List.mem_append_left _ (hseen k hk)
      · rw [hk]
        exact List.mem_append_right _ (List.mem_singleton_self _)
  · exact ⟨hkeys, hnodup, hseen⟩

theorem make_catalog_fold_good (swagger : Json) (reg : Registry) :
    goodState ((getObjEntries swagger "paths").foldl
      (fun st pe => (jsonObjEntries pe.2).foldl (catalog_step swagger reg pe.1 pe.2) st)
      ⟨[], [], []⟩) := by
  apply foldl_preserves
  · exact ⟨rfl, List.nodup_nil, fun k hk => absurd hk (List.not_mem_nil k)⟩
  · intro a b ha
    apply foldl_preserves
    · exact ha
    · intro a2 b2 ha2
      exact catalog_step_good ha2

/-! ### Concrete documents used by witnesses and counterexamples -/

/-- A document with two operations on the same path that declare the same
`operationId`. -/
def collisionDoc : Json := .obj [("paths", .obj [("/a", .obj [
  ("get", .obj [("operationId", .str "dup")]),
  ("post", .obj [("operationId", .str "dup")])])])]

/-- A response schema with both `results` and `entities` as array-typed
properties, `results` declared first. -/
def entitiesResultsSchema : Json := .obj [("properties", .obj [
  ("results", .obj [("type", .str "array")]),
  ("entities", .obj [("type", .str "array")])])]

/-! ### Claim theorems -/

/-- C1: for every Swagger document and override registry, the operations
mapping and the pagination mapping produced by `make_catalog` carry exactly
the same list of catalog keys, and those keys are pairwise distinct, so each
operation gets a key unique within the run. -/
theorem make_catalog_key_sets_match (swagger : Json) (reg : Registry) :
    (make_catalog swagger reg).1.map Prod.fst = (make_catalog swagger reg).2.map Prod.fst ∧
    ((make_catalog swagger reg).1.map Prod.fst).Nodup := by
  have h := make_catalog_fold_good swagger reg
  exact ⟨h.1, h.2.1⟩

/-- C2: `classify_paging` tests the eight rules in the fixed priority order
`nextUri`, `nextPage`, `cursor`, `after`, pageNumber-with-pageSize-and-count,
`totalHits`, startIndex-with-pageSize, otherwise UNKNOWN, and returns the tag
of the first matching rule; a property set with both `nextUri` and `cursor`
yields NEXT_URI, and one with `pageNumber` and `pageSize` but none of
`pageCount`, `total`, `totalCount` is never PAGE_NUMBER. -/
theorem classify_paging_priority_spec (props : List String) :
    ("nextUri" ∈ props → classify_paging props = "NEXT_URI") ∧
    ("nextUri" ∉ props → "nextPage" ∈ props → classify_paging props = "NEXT_PAGE") ∧
    ("nextUri" ∉ props → "nextPage" ∉ props → "cursor" ∈ props →
      classify_paging props = "CURSOR") ∧
    ("nextUri" ∉ props → "nextPage" ∉ props → "cursor" ∉ props → "after" ∈ props →
      classify_paging props = "AFTER") ∧
    ("nextUri" ∉ props → "nextPage" ∉ props → "cursor" ∉ props → "after" ∉ props →
      "pageNumber" ∈ props → "pageSize" ∈ props →
      ("pageCount" ∈ props ∨ "total" ∈ props ∨ "totalCount" ∈ props) →
      classify_paging props = "PAGE_NUMBER") ∧
    ("nextUri" ∉ props → "nextPage" ∉ props → "cursor" ∉ props → "after" ∉ props →
      ¬ (("pageNumber" ∈ props ∧ "pageSize" ∈ props) ∧
         ("pageCount" ∈ props ∨ "total" ∈ props ∨ "totalCount" ∈ props)) →
      "totalHits" ∈ props → classify_paging props = "TOTALHITS") ∧
    ("nextUri" ∉ props → "nextPage" ∉ props → "cursor" ∉ props → "after" ∉ props →
      ¬ (("pageNumber" ∈ props ∧ "pageSize" ∈ props) ∧
         ("pageCount" ∈ props ∨ "total" ∈ props ∨ "totalCount" ∈ props)) →
      "totalHits" ∉ props → "startIndex" ∈ props → "pageSize" ∈ props →
      classify_paging props = "START_INDEX") ∧
    ("nextUri" ∉ props → "nextPage" ∉ props → "cursor" ∉ props → "after" ∉ props →
      ¬ (("pageNumber" ∈ props ∧ "pageSize" ∈ props) ∧
         ("pageCount" ∈ props ∨ "total" ∈ props ∨ "totalCount" ∈ props)) →
      "totalHits" ∉ props → ¬ ("startIndex" ∈ props ∧ "pageSize" ∈ props) →
      classify_paging props = "UNKNOWN") ∧
    ("nextUri" ∈ props → "cursor" ∈ props → classify_paging props = "NEXT_URI") ∧
    ("pageNumber" ∈ props → "pageSize" ∈ props → "pageCount" ∉ props → "total" ∉ props →
      "totalCount" ∉ props → classify_paging props ≠ "PAGE_NUMBER") := by
  refine ⟨?_, ?_, ?_, ?_, ?_, ?_, ?_, ?_, ?_, ?_⟩
  · intro h1
    simp [classify_paging, h1]
  · intro h1 h2
    simp [classify_paging, h1, h2]
  · intro h1 h2 h3
    simp [classify_paging, h1, h2, h3]
  · intro h1 h2 h3 h4
    simp [classify_paging, h1, h2, h3, h4]
  · intro h1 h2 h3 h4 h5 h6 h7
    simp [classify_paging, h1, h2, h3, h4, h5, h6, h7]
  · intro h1 h2 h3 h4 h5 h6
    simp [classify_paging, h1, h2, h3, h4, h5, h6]
  · intro h1 h2 h3 h4 h5 h6 h7 h8
    unfold classify_paging
    split_ifs <;> simp_all
  · intro h1 h2 h3 h4 h5 h6 h7
    simp [classify_paging, h1, h2, h3, h4, h5, h6, h7]
  · intro h1 h2
    simp [classify_paging, h1]
  · intro h1 h2 h3 h4 h5
    unfold classify_paging
    split_ifs <;> simp_all

/-- Witness for C2 at a concrete property set. -/
theorem classify_paging_priority_witness :
    "nextUri" ∈ ["nextUri", "cursor"] ∧ "cursor" ∈ ["nextUri", "cursor"] ∧
    classify_paging ["nextUri", "cursor"] = "NEXT_URI" :=
  ⟨by decide, by decide,
    (classify_paging_priority_spec ["nextUri", "cursor"]).2.2.2.2.2.2.2.2.1
      (by decide) (by decide)⟩

/-- C9: the derivation is deterministic — two runs on the same document and
registry inputs produce identical operations and pagination mappings, however
the clock differs. -/
theorem catalog_run_deterministic (swagger : Json) (reg_path : Option String)
    (reg_exists : Bool) (reg_lines : List String) (t₁ t₂ : String) :
    ∃ o₁ o₂ : RunOutputs,
      run_main true swagger reg_path reg_exists reg_lines t₁ = some o₁ ∧
      run_main true swagger reg_path reg_exists reg_lines t₂ = some o₂ ∧
      o₁.operations = o₂.operations ∧ o₁.paging = o₂.paging :=
  ⟨_, _, rfl, rfl, rfl, rfl⟩

/-- C3 counterexample: on a document whose two operations share the id `dup`,
the second key is disambiguated to `dup__2`, but no CollisionRecord is
recorded anywhere — `make_catalog` returns only the operations and pagination
mappings, and `main` never writes `catalog-collisions.json`. -/
theorem collision_record_not_emitted :
    (make_catalog collisionDoc []).1.map Prod.fst = ["dup", "dup__2"] ∧
    "catalog-collisions.json" ∉ main_output_files := by
  constructor
  · decide
  · decide

/-- C3 (amended): a colliding candidate key gets the first free deterministic
numeric suffix `__2`, `__3`, … (every smaller suffix being taken), while a
non-colliding candidate is kept as is; but no CollisionRecord is recorded —
the run writes only the three files of `main_output_files`. -/
theorem collision_suffix_behavior (op_id : String) (seen : List String) :
    (op_id ∉ seen → assign_key op_id seen = op_id) ∧
    (op_id ∈ seen → ∃ k, 2 ≤ k ∧ assign_key op_id seen = mk_suffix_key op_id k ∧
       mk_suffix_key op_id k ∉ seen ∧
       ∀ j, 2 ≤ j → j < k → mk_suffix_key op_id j ∈ seen) ∧
    "catalog-collisions.json" ∉ main_output_files := by
  refine ⟨?_, ?_, by decide⟩
  · intro h
    simp [assign_key, h]
  · intro h
    obtain ⟨k, hk2, hres, hfree, hall⟩ :=
      assign_key_aux_spec op_id seen (seen.length + 1) 2 (exists_free_suffix op_id seen)
    refine ⟨k, hk2, ?_, hfree, hall⟩
    rw [assign_key, if_pos h]
    exact hres

/-- Witness for C3 at a concrete collision. -/
theorem collision_suffix_behavior_witness :
    "dup" ∈ ["dup"] ∧
    (∃ k, 2 ≤ k ∧ assign_key "dup" ["dup"] = mk_suffix_key "dup" k ∧
      mk_suffix_key "dup" k ∉ ["dup"] ∧
      ∀ j, 2 ≤ j → j < k → mk_suffix_key "dup" j ∈ ["dup"]) :=
  ⟨by decide, (collision_suffix_behavior "dup" ["dup"]).2.1 (by decide)⟩

/-- C7 counterexample: with a present document, a given registry path that
does not exist on disk, the run completes and writes its outputs (with an
empty registry) instead of aborting. -/
theorem registry_missing_not_fatal :
    run_main true (.obj []) (some "registry/paging-registry.yaml") false []
      "2024-01-01T00:00:00Z" = some ⟨[], [], "2024-01-01T00:00:00Z"⟩ := rfl

/-- C7 (amended): a registry path that does not exist yields the empty
registry and the run proceeds exactly as a run without a registry; only a
missing Swagger document path is fatal and aborts before any output. -/
theorem registry_missing_proceeds_empty (swagger : Json) (p : String)
    (lines : List String) (now : String) :
    run_main true swagger (some p) false lines now = run_main true swagger none false [] now ∧
    run_main false swagger (some p) false lines now = none := by
  constructor
  · by_cases hp : p = "" <;> simp [run_main, load_paging_registry, hp]
  · rfl

/-- Witness for C7 (amended) at concrete inputs. -/
theorem registry_missing_proceeds_empty_witness :
    run_main true (.obj []) (some "reg.yaml") false ["a:", "  type: X"] "t" =
      run_main true (.obj []) none false [] "t" ∧
    run_main false (.obj []) (some "reg.yaml") false [] "t" = none :=
  ⟨(registry_missing_proceeds_empty (.obj []) "reg.yaml" ["a:", "  type: X"] "t").1,
   (registry_missing_proceeds_empty (.obj []) "reg.yaml" [] "t").2⟩

/-- A found registry entry belongs to the registry. -/
theorem lookupReg_mem {reg : Registry} {k : String} {e : List (String × String)}
    (h : lookupReg reg k = some e) : ∃ p ∈ reg, p.2 = e := by
  unfold lookupReg at h
  cases hf : reg.find? (fun p => p.1 == k) with
  | none => rw [hf] at h; exact absurd h (by simp)
  | some p =>
    rw [hf] at h
    exact ⟨p, List.mem_of_find?_eq_some hf, by simpa using h⟩

/-- A found entry field belongs to the entry. -/
theorem lookupField_mem {e : List (String × String)} {f v : String}
    (h : lookupField e f = some v) : ∃ fv ∈ e, fv.2 = v := by
  unfold lookupField at h
  cases hf : e.find? (fun p => p.1 == f) with
  | none => rw [hf] at h; exact absurd h (by simp)
  | some p =>
    rw [hf] at h
    exact ⟨p, List.mem_of_find?_eq_some hf, by simpa using h⟩

/-- If no property value is array-typed, no named property is. -/
theorem prop_is_array_false_of_all {props : List (String × Json)} {name : String}
    (h : ∀ p ∈ props, isArrayVal p.2 = false) : prop_is_array props name = false := by
  unfold prop_is_array
  cases hf : getEntry props name with
  | none => rfl
  | some v =>
    unfold getEntry at hf
    cases hfind : props.find? (fun p => p.1 == name) with
    | none => rw [hfind] at hf; exact absurd hf (by simp)
    | some p =>
      rw [hfind] at hf
      have hv : p.2 = v := by simpa using hf
      rw [← hv]
      exact h p (List.mem_of_find?_eq_some hfind)

/-- C5: `infer_items_path` returns the priority names `entities`, `results`,
`conversations` (in that order) when present as array-typed properties of the
resolved schema; otherwise the first array-typed property in declaration
order as `$.name`; otherwise null.  A schema with both `results` and
`entities` array properties yields `$.entities`. -/
theorem infer_items_path_spec (defs : List (String × Json)) (schema : Json) :
    (prop_is_array (schema_properties defs schema) "entities" = true →
      infer_items_path defs schema = some "$.entities") ∧
    (prop_is_array (schema_properties defs schema) "entities" = false →
      prop_is_array (schema_properties defs schema) "results" = true →
      infer_items_path defs schema = some "$.results") ∧
    (prop_is_array (schema_properties defs schema) "entities" = false →
      prop_is_array (schema_properties defs schema) "results" = false →
      prop_is_array (schema_properties defs schema) "conversations" = true →
      infer_items_path defs schema = some "$.conversations") ∧
    (prop_is_array (schema_properties defs schema) "entities" = false →
      prop_is_array (schema_properties defs schema) "results" = false →
      prop_is_array (schema_properties defs schema) "conversations" = false →
      infer_items_path defs schema =
        ((schema_properties defs schema).find? (fun p => isArrayVal p.2)).map
          (fun p => "$." ++ p.1)) ∧
    ((∀ p ∈ schema_properties defs schema, isArrayVal p.2 = false) →
      infer_items_path defs schema = none) ∧
    (prop_is_array (schema_properties defs schema) "results" = true →
      prop_is_array (schema_properties defs schema) "entities" = true →
      infer_items_path defs schema = some "$.entities") := by
  refine ⟨?_, ?_, ?_, ?_, ?_, ?_⟩
  · intro h1
    simp [infer_items_path, h1]
  · intro h1 h2
    simp [infer_items_path, h1, h2]
  · intro h1 h2 h3
    simp [infer_items_path, h1, h2, h3]
  · intro h1 h2 h3
    simp [infer_items_path, h1, h2, h3]
    rcases hf : (schema_properties defs schema).find? (fun p => isArrayVal p.2) with _ | p <;>
      rw [hf] <;> rfl
  · intro hall
    have h1 := @prop_is_array_false_of_all (schema_properties defs schema) "entities" hall
    have h2 := @prop_is_array_false_of_all (schema_properties defs schema) "results" hall
    have h3 := @prop_is_array_false_of_all (schema_properties defs schema) "conversations" hall
    have hfind : (schema_properties defs schema).find? (fun p => isArrayVal p.2) = none :=
      List.find?_eq_none.mpr (fun p hp => by simp [hall p hp])
    simp [infer_items_path, h1, h2, h3, hfind]
  · intro _ h2
    simp [infer_items_path, h2]

/-- Witness for C5 at a concrete schema. -/
theorem infer_items_path_spec_witness :
    prop_is_array (schema_properties [] entitiesResultsSchema) "results" = true ∧
    prop_is_array (schema_properties [] entitiesResultsSchema) "entities" = true ∧
    infer_items_path [] entitiesResultsSchema = some "$.entities" :=
  ⟨by decide, by decide,
    (infer_items_path_spec [] entitiesResultsSchema).2.2.2.2.2 (by decide) (by decide)⟩

/-- The resolver on a non-empty mapping node, unfolded. -/
theorem resolve_ref_obj (defs : List (String × Json)) (kvs : List (String × Json))
    (h : kvs ≠ []) :
    resolve_ref defs (.obj kvs) =
      match getEntry kvs "$ref" with
      | some (.str r) =>
        match parse_def_ref r with
        | some name => (getEntry defs name).getD (.obj [])
        | none => .obj kvs
      | some _ => .obj kvs
      | none => .obj kvs := by
  have hemp : kvs.isEmpty = false := by
    cases kvs with
    | nil => exact absurd rfl h
    | cons a l => rfl
  simp [resolve_ref, Json.truthy, hemp]

/-- C6: `resolve_ref` performs exactly one level of in-document indirection:
a node whose `$ref` matches `#/definitions/name` resolves to the named
definition exactly as stored (or to the empty mapping when the name is
absent), and a node without a `$ref` or with a non-matching `$ref` is
returned unchanged. -/
theorem resolve_ref_spec (defs : List (String × Json)) (kvs : List (String × Json)) :
    (∀ r name, getEntry kvs "$ref" = some (.str r) → parse_def_ref r = some name →
      (∀ d, getEntry defs name = some d → resolve_ref defs (.obj kvs) = d) ∧
      (getEntry defs name = none → resolve_ref defs (.obj kvs) = .obj [])) ∧
    (getEntry kvs "$ref" = none → resolve_ref defs (.obj kvs) = .obj kvs) ∧
    (∀ r, getEntry kvs "$ref" = some (.str r) → parse_def_ref r = none →
      resolve_ref defs (.obj kvs) = .obj kvs) ∧
    resolve_ref defs .null = .null := by
  refine ⟨?_, ?_, ?_, rfl⟩
  · intro r name hr hname
    have hne : kvs ≠ [] := by
      intro hc
      rw [hc] at hr
      exact absurd hr (by simp [getEntry])
    constructor
    · intro d hd
      rw [resolve_ref_obj defs kvs hne, hr]
      simp [hname, hd]
    · intro hd
      rw [resolve_ref_obj defs kvs hne, hr]
      simp [hname, hd]
  · intro hr
    by_cases hne : kvs = []
    · rw [hne]
      rfl
    · rw [resolve_ref_obj defs kvs hne, hr]
  · intro r hr hname
    have hne : kvs ≠ [] := by
      intro hc
      rw [hc] at hr
      exact absurd hr (by simp [getEntry])
    rw [resolve_ref_obj defs kvs hne, hr]
    simp [hname]

/-- Witness for C6 at a concrete reference. -/
theorem resolve_ref_spec_witness :
    getEntry [("$ref", Json.str "#/definitions/Foo")] "$ref" =
      some (Json.str "#/definitions/Foo") ∧
    parse_def_ref "#/definitions/Foo" = some "Foo" ∧
    resolve_ref [("Foo", Json.obj [("x", Json.num 1)])]
      (.obj [("$ref", .str "#/definitions/Foo")]) = Json.obj [("x", Json.num 1)] :=
  ⟨rfl, by decide,
    ((resolve_ref_spec [("Foo", Json.obj [("x", Json.num 1)])]
        [("$ref", Json.str "#/definitions/Foo")]).1
      "#/definitions/Foo" "Foo" rfl (by decide)).1 (Json.obj [("x", Json.num 1)]) rfl⟩

/-- C8: `extract_required_permissions` collects scopes only from
security-requirement entries whose scheme name is declared in
`securityDefinitions` (a requirement mapping whose names are all undeclared
contributes nothing), and whenever nothing is collected — including when the
security value is absent or not a sequence — the result is null, never an
empty list. -/
theorem extract_permissions_spec (security_defs : List (String × Json))
    (security : Option Json) :
    ((∀ reqs, security ≠ some (.arr reqs)) →
      extract_required_permissions security_defs security = none) ∧
    (∀ reqs, security = some (.arr reqs) →
      (collect_scopes security_defs reqs = [] →
        extract_required_permissions security_defs security = none) ∧
      (∀ l, extract_required_permissions security_defs security = some l →
        l = py_sorted_set (collect_scopes security_defs reqs) ∧ l ≠ []) ∧
      (∀ reqs₁ reqs₂ kvs, reqs = reqs₁ ++ Json.obj kvs :: reqs₂ →
        (∀ p ∈ kvs, getEntry security_defs p.1 = none) →
        collect_scopes security_defs reqs =
          collect_scopes security_defs (reqs₁ ++ reqs₂))) := by
  constructor
  · intro h
    cases security with
    | none => rfl
    | some v =>
      cases v with
      | arr xs => exact absurd rfl (h xs)
      | null => rfl
      | bool b => rfl
      | num n => rfl
      | str s => rfl
      | obj kvs => rfl
  · intro reqs hs
    subst hs
    refine ⟨?_, ?_, ?_⟩
    · intro hc
      simp [extract_required_permissions, hc]
    · intro l hl
      simp only [extract_required_permissions] at hl
      split at hl
      · exact absurd hl (by simp)
      · rename_i hne
        have hcol : collect_scopes security_defs reqs ≠ [] := by
          intro hc
          exact hne (by simp [hc])
        rw [Option.some_inj] at hl
        exact ⟨hl.symm, hl ▸ py_sorted_set_ne_nil hcol⟩
    · intro reqs₁ reqs₂ kvs heq hund
      subst heq
      have hzero : kvs.flatMap
          (fun p => if (getEntry security_defs p.1).isSome then scope_strings p.2 else []) = [] := by
        rw [List.flatMap_eq_nil_iff]
        intro p hp
        simp [hund p hp]
      simp [collect_scopes, List.flatMap_append, List.flatMap_cons, hzero]

/-- Witness for C8 at a concrete security requirement. -/
theorem extract_permissions_spec_witness :
    extract_required_permissions [("oauth", Json.obj [])]
      (some (.arr [.obj [("oauth", .arr [.str "read", .str "read"])]])) = some ["read"] ∧
    ["read"] = py_sorted_set (collect_scopes [("oauth", Json.obj [])]
      [.obj [("oauth", .arr [.str "read", .str "read"])]]) :=
  ⟨by decide,
    (((extract_permissions_spec [("oauth", Json.obj [])]
        (some (.arr [.obj [("oauth", .arr [.str "read", .str "read"])]]))).2
      [.obj [("oauth", .arr [.str "read", .str "read"])]] rfl).2.1
      ["read"] (by decide)).1⟩

/-- C10: a non-null required-permissions result is sorted ascending with
duplicates removed, its members are exactly the collected scopes, and it
depends only on the membership of the collected scopes, not on their order or
multiplicity. -/
theorem permissions_sorted_nodup (security_defs : List (String × Json))
    (security : Option Json) (l : List String)
    (hl : extract_required_permissions security_defs security = some l) :
    l.Sorted (· ≤ ·) ∧ l.Nodup ∧
    (∀ s, s ∈ l ↔ ∃ reqs, security = some (.arr reqs) ∧
      s ∈ collect_scopes security_defs reqs) ∧
    (∀ (security₂ : Option Json) reqs reqs₂,
      security = some (.arr reqs) → security₂ = some (.arr reqs₂) →
      (∀ s, s ∈ collect_scopes security_defs reqs₂ ↔ s ∈ collect_scopes security_defs reqs) →
      extract_required_permissions security_defs security₂ = some l) := by
  cases security with
  | none => exact absurd hl (by simp [extract_required_permissions])
  | some v =>
    cases v with
    | null => exact absurd hl (by simp [extract_required_permissions])
    | bool b => exact absurd hl (by simp [extract_required_permissions])
    | num n => exact absurd hl (by simp [extract_required_permissions])
    | str s => exact absurd hl (by simp [extract_required_permissions])
    | obj kvs => exact absurd hl (by simp [extract_required_permissions])
    | arr reqs =>
      simp only [extract_required_permissions] at hl
      split at hl
      · exact absurd hl (by simp)
      · rename_i hne
        have hcol : collect_scopes security_defs reqs ≠ [] := by
          intro hc
          exact hne (by simp [hc])
        rw [Option.some_inj] at hl
        subst hl
        refine ⟨py_sorted_set_sorted_le _, py_sorted_set_nodup _, ?_, ?_⟩
        · intro s
          rw [py_sorted_set_mem]
          constructor
          · intro hs
            exact ⟨reqs, rfl, hs⟩
          · intro ⟨reqs0, heq, hs⟩
            have : reqs0 = reqs := by
              injection heq with heq2
              injection heq2 with heq3
              exact heq3.symm
            rw [← this]
            exact hs
        · intro sec₂ reqs0 reqs₂ h1 h2 hmem
          have hr0 : reqs0 = reqs := by
            injection h1 with h1b
            injection h1b with h1c
            exact h1c.symm
          subst hr0
          subst h2
          have hcol₂ : collect_scopes security_defs reqs₂ ≠ [] := by
            obtain ⟨a, ha⟩ := List.exists_mem_of_ne_nil _ hcol
            intro hc
            have := (hmem a).mpr ha
            rw [hc] at this
            exact List.not_mem_nil a this
          have hemp₂ : (collect_scopes security_defs reqs₂).isEmpty = false := by
            cases hcc : collect_scopes security_defs reqs₂ with
            | nil => exact absurd hcc hcol₂
            | cons x xs => rfl
          simp only [extract_required_permissions, hemp₂, Bool.false_eq_true, if_false]
          rw [py_sorted_set_eq_of_mem_iff hmem]

/-- Witness for C10 at a concrete security requirement with unsorted,
repeated scopes. -/
theorem permissions_sorted_nodup_witness :
    extract_required_permissions [("oauth", Json.obj [])]
      (some (.arr [.obj [("oauth", .arr [.str "b", .str "a", .str "b"])]])) = some ["a", "b"] ∧
    List.Sorted (· ≤ ·) ["a", "b"] ∧ List.Nodup ["a", "b"] :=
  ⟨by decide,
    (permissions_sorted_nodup [("oauth", Json.obj [])]
      (some (.arr [.obj [("oauth", .arr [.str "b", .str "a", .str "b"])]]))
      ["a", "b"] (by decide)).1,
    (permissions_sorted_nodup [("oauth", Json.obj [])]
      (some (.arr [.obj [("oauth", .arr [.str "b", .str "a", .str "b"])]]))
      ["a", "b"] (by decide)).2.1⟩

/-- C4: for a registry produced by `load_paging_registry`, the merger looks
up one entry first by catalog key and, when that is absent, by operation id;
each of the two fields is taken from the entry when the entry defines it
(necessarily with a non-empty value) and kept at its heuristic value
otherwise; with no entry both heuristic values are kept. -/
theorem override_merge_spec (path : Option String) (ex : Bool) (lines : List String)
    (reg : Registry) (hreg : reg = load_paging_registry path ex lines)
    (ckey opid : String) (pt : String) (ip : Option String) :
    (lookupReg reg ckey = none → lookupReg reg opid = none →
      apply_override reg ckey opid pt ip = (pt, ip)) ∧
    (∀ e, (lookupReg reg ckey = some e ∨
        (lookupReg reg ckey = none ∧ lookupReg reg opid = some e)) →
      (∀ v, lookupField e "type" = some v →
        v ≠ "" ∧ (apply_override reg ckey opid pt ip).1 = v) ∧
      (lookupField e "type" = none → (apply_override reg ckey opid pt ip).1 = pt) ∧
      (∀ v, lookupField e "itemsPath" = some v →
        v ≠ "" ∧ (apply_override reg ckey opid pt ip).2 = some v) ∧
      (lookupField e "itemsPath" = none → (apply_override reg ckey opid pt ip).2 = ip)) := by
  have hwf := load_paging_registry_wf path ex lines
  rw [← hreg] at hwf
  constructor
  · intro h1 h2
    simp [apply_override, pyOrEntry, h1, h2]
  · intro e hor
    have hmem : ∃ p ∈ reg, p.2 = e := by
      rcases hor with h | ⟨h1, h2⟩
      · exact lookupReg_mem h
      · exact lookupReg_mem h2
    obtain ⟨p, hp, hpe⟩ := hmem
    have hewf := hwf p hp
    rw [hpe] at hewf
    have hene : e ≠ [] := hewf.1
    have hee : e.isEmpty = false := by
      cases e with
      | nil => exact absurd rfl hene
      | cons x xs => rfl
    have hov : pyOrEntry (lookupReg reg ckey) (lookupReg reg opid) = some e := by
      rcases hor with h | ⟨h1, h2⟩
      · simp [pyOrEntry, h, hee]
      · simp [pyOrEntry, h1, h2]
    have hvalne : ∀ f v, lookupField e f = some v → v ≠ "" := by
      intro f v hv
      obtain ⟨fv, hfv, hfve⟩ := lookupField_mem hv
      rw [← hfve]
      exact hewf.2 fv hfv
    refine ⟨?_, ?_, ?_, ?_⟩
    · intro v hv
      refine ⟨hvalne "type" v hv, ?_⟩
      simp [apply_override, hov, hee, hv]
    · intro hv
      simp [apply_override, hov, hee, hv]
    · intro v hv
      refine ⟨hvalne "itemsPath" v hv, ?_⟩
      simp [apply_override, hov, hee, hv]
    · intro hv
      simp [apply_override, hov, hee, hv]

/-- Witness for C4: a loaded entry defining only `type` overrides the
heuristic type and leaves the heuristic items path unchanged. -/
theorem override_merge_spec_witness :
    load_paging_registry (some "paging-registry.yaml") true
      ["getThing:", "  type: TOTALHITS"] = [("getThing", [("type", "TOTALHITS")])] ∧
    apply_override [("getThing", [("type", "TOTALHITS")])] "getThing" "getThing"
      "CURSOR" (some "$.items") = ("TOTALHITS", some "$.items") := by
  refine ⟨by decide, ?_⟩
  have h := override_merge_spec (some "paging-registry.yaml") true
    ["getThing:", "  type: TOTALHITS"] [("getThing", [("type", "TOTALHITS")])] (by decide)
    "getThing" "getThing" "CURSOR" (some "$.items")
  have he := h.2 [("type", "TOTALHITS")] (Or.inl (by decide))
  have h1 := (he.1 "TOTALHITS" (by decide)).2
  have h2 := he.2.2.2 (by decide)
  exact Prod.ext h1 h2

end GenCat
